import Mathlib

/-!
Verification of the chessmaster3000 move-generation core.

This file shallowly embeds the move-generation core of the repository
(`run.js`, which inlines `chessmaster3000.js`): the position model, the
geometry predicates (`onBoard`, `pieceAt`, `ownedPieceAt`, `movableSpace`,
`enPassant`), the generic `leaper` and `rider` move engines, the per-piece
`rules` table, the castling generator and the player-level aggregator.
JavaScript values translate as follows: owner strings 'w'/'b'/null become
`Option Side`; the 8×8 board array of cell objects becomes
`List (List Cell)`; the `Set`-of-stringified-vectors deduplication in the
symmetric direction expansion becomes insertion-ordered deduplication on
integer pairs (stringification of integer pairs is injective up to JS's
negative zero, and Lean's `Int` has no negative zero, so `-0 = 0` holds
definitionally and the two agree); the unbounded `while` walk of `rider`
becomes fuel-bounded recursion with fuel 8, which is proved sufficient for
the unit directions the sliders use.
-/

namespace Chessmaster

/-- A player side: 'w' or 'b' in the source. -/
inductive Side where
  | w
  | b
deriving DecidableEq, Repr

/-- Piece kind characters of the source board cells: pawn, knight, rook,
bishop, queen, king, and 'x' for an empty cell. -/
inductive PKind where
  | p
  | n
  | r
  | b
  | q
  | k
  | x
deriving DecidableEq, Repr

/-- One board cell, as built by `importFile`: piece character, its own
rank/file coordinates, and its owner ('w'/'b', or null for empty). -/
structure Cell where
  p : PKind
  rank : Int
  file : Int
  owner : Option Side
deriving DecidableEq, Repr

/-- Per-side castling availability flags (`{k: bool, q: bool}`). -/
structure CastleFlags where
  k : Bool
  q : Bool
deriving DecidableEq, Repr

/-- The parsed game state `{board, playerTurn, castling, enPassant}`. -/
structure GameState where
  board : List (List Cell)
  playerTurn : Side
  castling : Side → CastleFlags
  enPassant : Option (Int × Int)

/-- Total lookup of `state.board[rank][file]`; the default cell (owner
null) is returned for out-of-range indices.  Every use in the source is
guarded by `onBoard`, so on an 8×8 board the default is never consulted. -/
def cellAt (state : GameState) (rank file : Int) : Cell :=
  (((state.board.get? rank.toNat).getD []).get? file.toNat).getD ⟨.x, rank, file, none⟩

/-- `onBoard`: both coordinates are within [0, 7]. -/
def onBoard (rank file : Int) : Bool :=
  decide (0 ≤ rank) && decide (rank ≤ 7) && decide (0 ≤ file) && decide (file ≤ 7)

/-- `pieceAt`: the position is on the board and not empty. -/
def pieceAt (rank file : Int) (state : GameState) : Bool :=
  onBoard rank file && decide ((cellAt state rank file).owner ≠ none)

/-- `ownedPieceAt`: the position is on the board and its owner equals the
given player value ('w'/'b'/null). -/
def ownedPieceAt (rank file : Int) (player : Option Side) (state : GameState) : Bool :=
  onBoard rank file && decide ((cellAt state rank file).owner = player)

/-- `movableSpace`: the position is on the board and empty or not owned by
the given player value. -/
def movableSpace (rank file : Int) (player : Option Side) (state : GameState) : Bool :=
  onBoard rank file &&
    (decide ((cellAt state rank file).owner = none) ||
     decide ((cellAt state rank file).owner ≠ player))

/-- `enPassant`: the position equals the state's en-passant target. -/
def enPassant (rank file : Int) (state : GameState) : Bool :=
  match state.enPassant with
  | none => false
  | some t => decide (t.1 = rank) && decide (t.2 = file)

/-- The opponent ternary the source repeats in `rider` and `rules.p`:
`p.owner === 'w' ? 'b' : 'w'`. -/
def opponentOf (owner : Option Side) : Side :=
  if owner = some Side.w then Side.b else Side.w

/-- The pawn forward step ternary of `rules.p`:
`p.owner === 'w' ? -1 : 1`. -/
def pawnStep (owner : Option Side) : Int :=
  if owner = some Side.w then -1 else 1

/-- One `Set.add` of the symmetric-direction expansion: insertion-ordered,
deduplicating on the integer pair (matching the JS dedup on the pair's
string form, since `Int` has no negative zero). -/
def addDir (l : List (Int × Int)) (d : Int × Int) : List (Int × Int) :=
  if d ∈ l then l else l ++ [d]

/-- The symmetric expansion of a base direction list: each direction is
mirrored over each axis independently and the results deduplicated. -/
def symmetricalDirs (dirs : List (Int × Int)) : List (Int × Int) :=
  dirs.foldl
    (fun set dir =>
      addDir (addDir (addDir (addDir set dir) (-dir.1, dir.2)) (dir.1, -dir.2))
        (-dir.1, -dir.2))
    []

/-- `leaper`: jumping pieces (knight, king).  Expand the base directions
symmetrically, keep the offsets whose target is a movable space for the
piece's owner, and convert to absolute positions. -/
def leaper (dirs : List (Int × Int)) : Cell → GameState → List (Int × Int) :=
  fun p state =>
    ((symmetricalDirs dirs).filter
        (fun dir => movableSpace (p.rank + dir.1) (p.file + dir.2) p.owner state)).map
      (fun dir => (p.rank + dir.1, p.file + dir.2))

/-- The `while` condition of `rider.getAllSpacesInDir`: the square is on
the board and empty. -/
def openAt (pos : Int × Int) (state : GameState) : Bool :=
  onBoard pos.1 pos.2 && !pieceAt pos.1 pos.2 state

/-- The `while` walk of `rider.getAllSpacesInDir`: advance while the
position is on the board and empty, collecting those squares; at the first
failing square, keep it iff it holds an opponent piece.  The source loop is
unbounded; here it carries fuel, and fuel 8 is enough for every direction
with a ±1 component (`firstBlock_exists` below), which covers every
direction the sliders are instantiated with. -/
def rideFrom (state : GameState) (opponent : Side) (dir : Int × Int) :
    Nat → Int × Int → List (Int × Int)
  | 0, pos =>
      if ownedPieceAt pos.1 pos.2 (some opponent) state then [pos] else []
  | fuel + 1, pos =>
      if openAt pos state then
        pos :: rideFrom state opponent dir fuel (pos.1 + dir.1, pos.2 + dir.2)
      else if ownedPieceAt pos.1 pos.2 (some opponent) state then [pos] else []

/-- `rider.getAllSpacesInDir`: the ray walk starting one step from the
piece's square. -/
def getAllSpacesInDir (rank file : Int) (opponent : Side) (state : GameState)
    (dir : Int × Int) : List (Int × Int) :=
  rideFrom state opponent dir 8 (rank + dir.1, file + dir.2)

/-- `rider`: sliding pieces (rook, bishop, queen).  Expand the base
directions symmetrically and concatenate the ray walks. -/
def rider (dirs : List (Int × Int)) : Cell → GameState → List (Int × Int) :=
  fun p state =>
    (symmetricalDirs dirs).foldl
      (fun arr dir =>
        arr ++ getAllSpacesInDir p.rank p.file (opponentOf p.owner) state dir) []

/-- `rules.p`: the pawn rule.  Forward direction -1 for White, +1 for
Black; a regular move (note the source passes `opponent`, not the pawn's
own side, to `movableSpace`), a two-square first move from the starting
rank checking only the intermediate square, and the two diagonal attacks
including en passant. -/
def pawnRule (p : Cell) (state : GameState) : List (Int × Int) :=
  let rank := p.rank
  let file := p.file
  let side : Int := pawnStep p.owner
  let opponent : Side := opponentOf p.owner
  (if movableSpace (rank + side) file (some opponent) state then
      [(rank + side, file)]
    else []) ++
  (if decide (side = 1) && decide (rank = 1) && !pieceAt (rank + 1) file state then
      [(rank + 2, file)]
    else if decide (side = -1) && decide (rank = 6) && !pieceAt (rank - 1) file state then
      [(rank - 2, file)]
    else []) ++
  (if ownedPieceAt (rank + side) (file + 1) (some opponent) state ||
        enPassant (rank + side) (file + 1) state then
      [(rank + side, file + 1)]
    else []) ++
  (if ownedPieceAt (rank + side) (file - 1) (some opponent) state ||
        enPassant (rank + side) (file - 1) state then
      [(rank + side, file - 1)]
    else [])

/-- The `rules` dispatch table, keyed by piece kind.  The source object has
no entry for 'x' (an empty cell is never dispatched, since the aggregator
only dispatches cells with a non-null owner); the 'x' case is totalized to
the empty move list. -/
def rules : PKind → Cell → GameState → List (Int × Int)
  | .p => pawnRule
  | .n => leaper [(2, 1), (1, 2)]
  | .r => rider [(1, 0), (0, 1)]
  | .b => rider [(1, 1)]
  | .q => rider [(1, 0), (0, 1), (1, 1)]
  | .k => leaper [(1, 0), (0, 1), (1, 1)]
  | .x => fun _ _ => []

/-- A generated move record `{piece, fromRank, fromFile, toRank, toFile}`,
with the `castle` flag that castling moves set (absent, i.e. falsy, on
ordinary moves). -/
structure Move where
  piece : PKind
  fromRank : Int
  fromFile : Int
  toRank : Int
  toFile : Int
  castle : Bool
deriving DecidableEq, Repr

/-- `getOptionsForPiece`: run the rule for the piece's kind and wrap each
destination into a move record. -/
def getOptionsForPiece (piece : Cell) (state : GameState) : List Move :=
  (rules piece.p piece state).map
    (fun mv => ⟨piece.p, piece.rank, piece.file, mv.1, mv.2, false⟩)

/-- The side's home rank: 7 for White, 0 for Black. -/
def homeRank (player : Side) : Int :=
  if player = Side.w then 7 else 0

/-- `getCastlingOptions`: per wing, if the rights flag is set and the
squares between king and rook are empty, emit the king and rook move
records with `castle = true`. -/
def getCastlingOptions (player : Side) (state : GameState) : List Move :=
  (if (state.castling player).k && !pieceAt (homeRank player) 5 state &&
        !pieceAt (homeRank player) 6 state then
      [⟨.k, homeRank player, 4, homeRank player, 6, true⟩,
       ⟨.r, homeRank player, 7, homeRank player, 5, true⟩]
    else []) ++
  (if (state.castling player).q && !pieceAt (homeRank player) 1 state &&
        !pieceAt (homeRank player) 2 state && !pieceAt (homeRank player) 3 state then
      [⟨.k, homeRank player, 4, homeRank player, 2, true⟩,
       ⟨.r, homeRank player, 0, homeRank player, 3, true⟩]
    else [])

/-- `getOptionsForPlayer`: collect the player's pieces in board order,
concatenate each piece's options, then append the castling options. -/
def getOptionsForPlayer (state : GameState) (player : Side) : List Move :=
  let playersPieces :=
    state.board.foldl
      (fun pre row => pre ++ row.filter (fun c => decide (c.owner = some player))) []
  let options :=
    playersPieces.foldl (fun pre piece => pre ++ getOptionsForPiece piece state) []
  options ++ getCastlingOptions player state

/-! ### Concrete board fixtures

Board builders mirroring `importFile`'s board construction: each cell
records its own rank and file, rank 0 being the top row of the FEN string. -/

/-- Build one board row from (kind, owner) pairs, stamping rank/file. -/
def mkRow (rank : Int) : Int → List (PKind × Option Side) → List Cell
  | _, [] => []
  | file, c :: rest => ⟨c.1, rank, file, c.2⟩ :: mkRow rank (file + 1) rest

/-- Build a board from rows of (kind, owner) pairs, stamping rank/file. -/
def mkBoardFrom : Int → List (List (PKind × Option Side)) → List (List Cell)
  | _, [] => []
  | rank, row :: rest => mkRow rank 0 row :: mkBoardFrom (rank + 1) rest

/-- Build a board starting at rank 0. -/
def mkBoard (rows : List (List (PKind × Option Side))) : List (List Cell) :=
  mkBoardFrom 0 rows

/-- An empty cell descriptor. -/
def xx : PKind × Option Side := (.x, none)

/-- A whole empty row. -/
def emptyRow : List (PKind × Option Side) :=
  [xx, xx, xx, xx, xx, xx, xx, xx]

/-- White piece descriptor. -/
def wP (kind : PKind) : PKind × Option Side := (kind, some Side.w)

/-- Black piece descriptor. -/
def bP (kind : PKind) : PKind × Option Side := (kind, some Side.b)

/-- The standard chess starting position (FEN
`rnbqkbnr/pppppppp/8/8/8/8/PPPPPPPP/RNBQKBNR w KQkq -`). -/
def startingState : GameState where
  board := mkBoard
    [[bP .r, bP .n, bP .b, bP .q, bP .k, bP .b, bP .n, bP .r],
     [bP .p, bP .p, bP .p, bP .p, bP .p, bP .p, bP .p, bP .p],
     emptyRow, emptyRow, emptyRow, emptyRow,
     [wP .p, wP .p, wP .p, wP .p, wP .p, wP .p, wP .p, wP .p],
     [wP .r, wP .n, wP .b, wP .q, wP .k, wP .b, wP .n, wP .r]]
  playerTurn := .w
  castling := fun _ => ⟨true, true⟩
  enPassant := none

/-! ### Auxiliary definitions for the statements -/

/-- The base direction lists the `rules` table hands to `rider`, keyed by
slider kind. -/
def riderBaseDirs : PKind → List (Int × Int)
  | .r => [(1, 0), (0, 1)]
  | .b => [(1, 1)]
  | .q => [(1, 0), (0, 1), (1, 1)]
  | _ => []

/-- A general step sequence used to reason about the ray walk: `i` steps of
`dir` from `start`. -/
def stepN (start dir : Int × Int) (i : Nat) : Int × Int :=
  (start.1 + (i : Int) * dir.1, start.2 + (i : Int) * dir.2)

/-- The `i`-th square the ray walk of `rider` visits (counting from 0) for
a piece at `(rank, file)` moving along `dir`: the walk starts one step out. -/
def raySquare (rank file : Int) (dir : Int × Int) : Nat → Int × Int :=
  stepN (rank + dir.1, file + dir.2) dir

/-- The §3 data-model invariant on the en-passant field: if present, the
target is an on-board square. -/
def enPassantTargetWF (state : GameState) : Prop :=
  ∀ t, state.enPassant = some t → onBoard t.1 t.2 = true

/-- A board with a lone white pawn on a2 (model square (6,0)) and a white
knight directly ahead of it on a3 (model square (5,0)). -/
def ownBlockedPawnState : GameState where
  board := mkBoard
    [emptyRow, emptyRow, emptyRow, emptyRow, emptyRow,
     [wP .n, xx, xx, xx, xx, xx, xx, xx],
     [wP .p, xx, xx, xx, xx, xx, xx, xx],
     emptyRow]
  playerTurn := .w
  castling := fun _ => ⟨false, false⟩
  enPassant := none

/-- A board with a lone white pawn on a2 (model square (6,0)), the square
a3 ahead of it empty, and a black rook on the double-push destination a4
(model square (4,0)). -/
def blockedDoublePushState : GameState where
  board := mkBoard
    [emptyRow, emptyRow, emptyRow, emptyRow,
     [bP .r, xx, xx, xx, xx, xx, xx, xx],
     emptyRow,
     [wP .p, xx, xx, xx, xx, xx, xx, xx],
     emptyRow]
  playerTurn := .w
  castling := fun _ => ⟨false, false⟩
  enPassant := none

/-- A completely empty board on which White nevertheless holds the
kingside castling right. -/
def emptyBoardWithRights : GameState where
  board := mkBoard
    [emptyRow, emptyRow, emptyRow, emptyRow,
     emptyRow, emptyRow, emptyRow, emptyRow]
  playerTurn := .w
  castling := fun _ => ⟨true, false⟩
  enPassant := none

/-- A completely empty board with no castling rights for either side. -/
def emptyBoardNoRights : GameState where
  board := mkBoard
    [emptyRow, emptyRow, emptyRow, emptyRow,
     emptyRow, emptyRow, emptyRow, emptyRow]
  playerTurn := .w
  castling := fun _ => ⟨false, false⟩
  enPassant := none

/-- An en-passant scenario: Black just played the double push d7–d5, so
the target square is d6 (model square (2,3)); a white pawn stands on e5
(model square (3,4)), the black pawn on d5 (model square (3,3)). -/
def enPassantScenario : GameState where
  board := mkBoard
    [emptyRow, emptyRow, emptyRow,
     [xx, xx, xx, bP .p, wP .p, xx, xx, xx],
     emptyRow, emptyRow, emptyRow, emptyRow]
  playerTurn := .w
  castling := fun _ => ⟨false, false⟩
  enPassant := some (2, 3)

/-- A lone white rook on a8 (model square (0,0)) with a black pawn on a4
(model square (4,0)): the downward ray stops by capture, the rightward ray
by the board edge. -/
def rookRayState : GameState where
  board := mkBoard
    [[wP .r, xx, xx, xx, xx, xx, xx, xx],
     emptyRow, emptyRow, emptyRow,
     [bP .p, xx, xx, xx, xx, xx, xx, xx],
     emptyRow, emptyRow, emptyRow]
  playerTurn := .w
  castling := fun _ => ⟨false, false⟩
  enPassant := none

/-! ### Theorems -/

/-- C1: the pawn rule's single push is NOT restricted to unoccupied
squares.  On a board whose only pieces are a white pawn on (6,0) and a
white knight on (5,0), the square (5,0) is occupied by the pawn's own
side and is nevertheless produced as a single-push destination, because
`rules.p` passes the opponent (not the pawn's own side) to
`movableSpace`. -/
theorem c1_single_push_onto_own_piece :
    pieceAt 5 0 ownBlockedPawnState = true ∧
    (cellAt ownBlockedPawnState 5 0).owner = some Side.w ∧
    ((5 : Int), (0 : Int)) ∈ pawnRule ⟨PKind.p, 6, 0, some Side.w⟩ ownBlockedPawnState := by
  decide

/-- C2: the pawn rule's double push checks only the intermediate square,
not the destination.  With a white pawn on (6,0), (5,0) empty and a black
rook on (4,0), the occupied square (4,0) is still produced as a
double-push destination. -/
theorem c2_double_push_onto_occupied_square :
    pieceAt 4 0 blockedDoublePushState = true ∧
    pieceAt 5 0 blockedDoublePushState = false ∧
    ((4 : Int), (0 : Int)) ∈ pawnRule ⟨PKind.p, 6, 0, some Side.w⟩ blockedDoublePushState := by
  decide

/-- C3 counterexample: a position in which White owns zero pieces but
holds the kingside castling flag yields a NON-empty move list — the
castling generator consults only the rights flags and occupancy, never
whether the side has pieces. -/
theorem c3_castles_without_pieces :
    (∀ row ∈ emptyBoardWithRights.board, ∀ c ∈ row, c.owner ≠ some Side.w) ∧
    getOptionsForPlayer emptyBoardWithRights Side.w ≠ [] := by
  decide

/-- C6: on the standard starting position with White to move, generation
yields exactly 20 moves: 16 pawn moves (a single and a double push for
each of the 8 pawns), 4 knight moves, and 0 castling moves. -/
theorem c6_starting_position_twenty_moves :
    (getOptionsForPlayer startingState Side.w).length = 20 ∧
    ((getOptionsForPlayer startingState Side.w).filter
        (fun m => decide (m.piece = PKind.p))).length = 16 ∧
    ((getOptionsForPlayer startingState Side.w).filter
        (fun m => decide (m.piece = PKind.n))).length = 4 ∧
    ((getOptionsForPlayer startingState Side.w).filter (fun m => m.castle)).length = 0 ∧
    (∀ f ∈ ([0, 1, 2, 3, 4, 5, 6, 7] : List Int),
      (⟨PKind.p, 6, f, 5, f, false⟩ : Move) ∈ getOptionsForPlayer startingState Side.w ∧
      (⟨PKind.p, 6, f, 4, f, false⟩ : Move) ∈ getOptionsForPlayer startingState Side.w) := by
  decide

/-- C9: move generation is deterministic and effect-free.  The embedding
is pure state passing — `getOptionsForPlayer` only reads the position and
returns a fresh list, mirroring that the source never mutates the state —
so two calls on the same unchanged position are definitionally the same
list. -/
theorem c9_generation_deterministic (state : GameState) (player : Side) :
    getOptionsForPlayer state player = getOptionsForPlayer state player := rfl

/-- C7: the geometry predicates are total and return `false` on off-board
coordinates (for `enPassant`, under the §3 data-model invariant that the
recorded target, when present, is an on-board square); board lookups in
the embedding are guarded by `onBoard` exactly as in the source, so no
out-of-bounds access is ever performed. -/
theorem c7_offboard_predicates_false (state : GameState) (player : Option Side)
    (rank file : Int) (hoff : onBoard rank file = false)
    (hwf : enPassantTargetWF state) :
    pieceAt rank file state = false ∧
    ownedPieceAt rank file player state = false ∧
    movableSpace rank file player state = false ∧
    enPassant rank file state = false := by
  refine ⟨by simp [pieceAt, hoff], by simp [ownedPieceAt, hoff],
    by simp [movableSpace, hoff], ?_⟩
  unfold enPassant
  cases ht : state.enPassant with
  | none => rfl
  | some t =>
    by_cases h1 : t.1 = rank
    · by_cases h2 : t.2 = file
      · exfalso
        have hb := hwf t ht
        rw [h1, h2] at hb
        rw [hoff] at hb
        exact absurd hb (by decide)
      · simp [h2]
    · simp [h1]

/-- Witness for C7 at the starting position and the off-board coordinate
(-1, 0). -/
theorem c7_offboard_predicates_false_witness :
    onBoard (-1) 0 = false ∧ enPassantTargetWF startingState ∧
    (pieceAt (-1) 0 startingState = false ∧
     ownedPieceAt (-1) 0 (some Side.w) startingState = false ∧
     movableSpace (-1) 0 (some Side.w) startingState = false ∧
     enPassant (-1) 0 startingState = false) := by
  have hwf : enPassantTargetWF startingState := fun t h => nomatch h
  exact ⟨by decide, hwf,
    c7_offboard_predicates_false startingState (some Side.w) (-1) 0 (by decide) hwf⟩

/-- Folding append of `f` over a list, as the source's
`reduce((arr, x) => arr.concat(f(x)), [])`, equals `init ++ l.bind f`. -/
theorem foldl_append_bind {α β : Type} (f : α → List β) :
    ∀ (l : List α) (init : List β),
      l.foldl (fun acc d => acc ++ f d) init = init ++ l.flatMap f
  | [], init => by simp
  | a :: l, init => by
    simp only [List.foldl_cons, List.flatMap_cons]
    rw [foldl_append_bind f l (init ++ f a), List.append_assoc]

/-- C3 amended: for a side with zero pieces on the board AND both of its
castling-rights flags false, the player aggregator returns the empty move
list (without the rights condition the castling generator can still emit
moves, see `c3_castles_without_pieces`). -/
theorem c3_amended_no_pieces_no_rights (state : GameState) (player : Side)
    (hpieces : ∀ row ∈ state.board, ∀ c ∈ row, c.owner ≠ some player)
    (hk : (state.castling player).k = false)
    (hq : (state.castling player).q = false) :
    getOptionsForPlayer state player = [] := by
  have hfilter : ∀ row ∈ state.board,
      row.filter (fun c => decide (c.owner = some player)) = [] := by
    intro row hr
    rw [List.filter_eq_nil_iff]
    intro c hc
    simp [hpieces row hr c hc]
  have h1 : state.board.foldl
      (fun pre row => pre ++ row.filter (fun c => decide (c.owner = some player))) []
      = [] := by
    rw [foldl_append_bind]
    simp only [List.nil_append]
    rw [List.flatMap_eq_nil_iff]
    exact hfilter
  simp only [getOptionsForPlayer, h1, List.foldl_nil, List.nil_append]
  simp [getCastlingOptions, hk, hq]

/-- Witness for the amended C3 on an empty board with no rights. -/
theorem c3_amended_no_pieces_no_rights_witness :
    (∀ row ∈ emptyBoardNoRights.board, ∀ c ∈ row, c.owner ≠ some Side.w) ∧
    (emptyBoardNoRights.castling Side.w).k = false ∧
    (emptyBoardNoRights.castling Side.w).q = false ∧
    getOptionsForPlayer emptyBoardNoRights Side.w = [] := by
  refine ⟨by decide, by decide, by decide,
    c3_amended_no_pieces_no_rights emptyBoardNoRights Side.w (by decide) (by decide)
      (by decide)⟩

/-- Membership structure of a list made of two conditional pairs, the
shape `getCastlingOptions` produces. -/
theorem two_pair_lists_spec (c1 c2 : Bool) (A B C D : Move) (l : List Move)
    (hl : l = (if c1 = true then [A, B] else []) ++ (if c2 = true then [C, D] else []))
    (hAC : A ≠ C) (hAD : A ≠ D) (hBC : B ≠ C) (hBD : B ≠ D) :
    ((A ∈ l ∧ B ∈ l) ↔ c1 = true) ∧ (A ∈ l ↔ B ∈ l) ∧
    ((C ∈ l ∧ D ∈ l) ↔ c2 = true) ∧ (C ∈ l ↔ D ∈ l) := by
  have hCA := hAC.symm
  have hDA := hAD.symm
  have hCB := hBC.symm
  have hDB := hBD.symm
  subst hl
  cases c1 <;> cases c2 <;> simp_all

/-- C5: for every position, side and wing, the castling rule emits the two
castle-flagged move records of that wing (kingside: king file 4→6 and rook
file 7→5; queenside: king file 4→2 and rook file 0→3, on the side's home
rank) iff the wing's rights flag is set and the named intervening squares
are unoccupied, and the two records of a wing are always present or absent
together. -/
theorem c5_castling_pairs (state : GameState) (player : Side) :
    (((⟨.k, homeRank player, 4, homeRank player, 6, true⟩ : Move) ∈
          getCastlingOptions player state ∧
      (⟨.r, homeRank player, 7, homeRank player, 5, true⟩ : Move) ∈
          getCastlingOptions player state) ↔
      ((state.castling player).k = true ∧ pieceAt (homeRank player) 5 state = false ∧
        pieceAt (homeRank player) 6 state = false)) ∧
    ((⟨.k, homeRank player, 4, homeRank player, 6, true⟩ : Move) ∈
        getCastlingOptions player state ↔
      (⟨.r, homeRank player, 7, homeRank player, 5, true⟩ : Move) ∈
        getCastlingOptions player state) ∧
    (((⟨.k, homeRank player, 4, homeRank player, 2, true⟩ : Move) ∈
          getCastlingOptions player state ∧
      (⟨.r, homeRank player, 0, homeRank player, 3, true⟩ : Move) ∈
          getCastlingOptions player state) ↔
      ((state.castling player).q = true ∧ pieceAt (homeRank player) 1 state = false ∧
        pieceAt (homeRank player) 2 state = false ∧
        pieceAt (homeRank player) 3 state = false)) ∧
    ((⟨.k, homeRank player, 4, homeRank player, 2, true⟩ : Move) ∈
        getCastlingOptions player state ↔
      (⟨.r, homeRank player, 0, homeRank player, 3, true⟩ : Move) ∈
        getCastlingOptions player state) := by
  have hAC : (⟨.k, homeRank player, 4, homeRank player, 6, true⟩ : Move) ≠
      ⟨.k, homeRank player, 4, homeRank player, 2, true⟩ := by
    intro h
    rw [Move.mk.injEq] at h
    obtain ⟨-, -, -, -, h6, -⟩ := h
    omega
  have hAD : (⟨.k, homeRank player, 4, homeRank player, 6, true⟩ : Move) ≠
      ⟨.r, homeRank player, 0, homeRank player, 3, true⟩ := by
    intro h
    rw [Move.mk.injEq] at h
    exact PKind.noConfusion h.1
  have hBC : (⟨.r, homeRank player, 7, homeRank player, 5, true⟩ : Move) ≠
      ⟨.k, homeRank player, 4, homeRank player, 2, true⟩ := by
    intro h
    rw [Move.mk.injEq] at h
    exact PKind.noConfusion h.1
  have hBD : (⟨.r, homeRank player, 7, homeRank player, 5, true⟩ : Move) ≠
      ⟨.r, homeRank player, 0, homeRank player, 3, true⟩ := by
    intro h
    rw [Move.mk.injEq] at h
    obtain ⟨-, -, h7, -⟩ := h
    omega
  obtain ⟨h1, h2, h3, h4⟩ :=
    two_pair_lists_spec
      ((state.castling player).k && !pieceAt (homeRank player) 5 state &&
        !pieceAt (homeRank player) 6 state)
      ((state.castling player).q && !pieceAt (homeRank player) 1 state &&
        !pieceAt (homeRank player) 2 state && !pieceAt (homeRank player) 3 state)
      _ _ _ _ (getCastlingOptions player state) rfl hAC hAD hBC hBD
  refine ⟨?_, h2, ?_, h4⟩
  · rw [h1]
    simp [Bool.and_eq_true, Bool.not_eq_true', and_assoc]
  · rw [h3]
    simp [Bool.and_eq_true, Bool.not_eq_true', and_assoc]

/-- An empty (or off-board) square is not owned by anyone. -/
theorem ownedPieceAt_false_of_pieceAt_false (rank file : Int) (x : Side)
    (state : GameState) (h : pieceAt rank file state = false) :
    ownedPieceAt rank file (some x) state = false := by
  unfold pieceAt at h
  unfold ownedPieceAt
  cases hb : onBoard rank file
  · simp [hb]
  · rw [hb] at h
    simp only [Bool.true_and, decide_eq_false_iff_not, not_not] at h
    simp [h]

/-- `enPassant` holds exactly at the recorded target square. -/
theorem enPassant_true_iff (rank file : Int) (state : GameState) :
    enPassant rank file state = true ↔ state.enPassant = some (rank, file) := by
  unfold enPassant
  cases h : state.enPassant with
  | none => simp
  | some t =>
    simp [Bool.and_eq_true, decide_eq_true_eq, Option.some.injEq, Prod.ext_iff]

/-- Membership in a conditional singleton forces equality. -/
theorem mem_ite_singleton {α : Type} {x y : α} {c : Prop} [Decidable c]
    (h : x ∈ (if c then [y] else ([] : List α))) : x = y := by
  split at h
  · simpa using h
  · simp at h

/-- Membership in a two-branch conditional singleton chain forces one of
the two equalities. -/
theorem mem_ite_ite_singleton {α : Type} {x a b : α} {c1 c2 : Prop}
    [Decidable c1] [Decidable c2]
    (h : x ∈ (if c1 then [a] else if c2 then [b] else ([] : List α))) :
    x = a ∨ x = b := by
  split at h
  · left; simpa using h
  · split at h
    · right; simpa using h
    · simp at h

/-- C8: if the recorded en-passant target is the empty square one forward
diagonal step from a pawn of the side to move, the pawn rule includes that
target as a destination even though it is unoccupied, and an empty
forward-diagonal square that is not the target is never a pawn
destination. -/
theorem c8_en_passant_extra_diagonal (state : GameState) (cell : Cell)
    (hown : cell.owner = some state.playerTurn) (d : Int) (hd : d = 1 ∨ d = -1)
    (htgt : state.enPassant = some (cell.rank + pawnStep cell.owner, cell.file + d))
    (hempty : pieceAt (cell.rank + pawnStep cell.owner) (cell.file + d) state = false) :
    (cell.rank + pawnStep cell.owner, cell.file + d) ∈ pawnRule cell state ∧
    ∀ e : Int, (e = 1 ∨ e = -1) →
      pieceAt (cell.rank + pawnStep cell.owner) (cell.file + e) state = false →
      state.enPassant ≠ some (cell.rank + pawnStep cell.owner, cell.file + e) →
      (cell.rank + pawnStep cell.owner, cell.file + e) ∉ pawnRule cell state := by
  constructor
  · rcases hd with rfl | rfl
    · have hep : enPassant (cell.rank + pawnStep cell.owner) (cell.file + 1) state
          = true := by
        simp [enPassant, htgt]
      simp [pawnRule, hep]
    · have hep : enPassant (cell.rank + pawnStep cell.owner) (cell.file + -1) state
          = true := by
        rw [enPassant_true_iff]
        exact htgt
      simp [pawnRule, hep, sub_eq_add_neg]
  · intro e he hempty2 hne hmem
    have hop : ownedPieceAt (cell.rank + pawnStep cell.owner) (cell.file + e)
        (some (opponentOf cell.owner)) state = false :=
      ownedPieceAt_false_of_pieceAt_false _ _ _ _ hempty2
    have hepf : enPassant (cell.rank + pawnStep cell.owner) (cell.file + e) state
        = false := by
      rw [Bool.eq_false_iff]
      intro h
      exact hne ((enPassant_true_iff _ _ _).mp h)
    simp only [pawnRule, sub_eq_add_neg, List.mem_append] at hmem
    rcases he with rfl | rfl
    · rcases hmem with ((h | h) | h) | h
      · have h1 := mem_ite_singleton h
        rw [Prod.mk.injEq] at h1
        omega
      · rcases mem_ite_ite_singleton h with h1 | h1 <;>
          (rw [Prod.mk.injEq] at h1; omega)
      · rw [hop, hepf] at h
        simp at h
      · have h1 := mem_ite_singleton h
        rw [Prod.mk.injEq] at h1
        omega
    · rcases hmem with ((h | h) | h) | h
      · have h1 := mem_ite_singleton h
        rw [Prod.mk.injEq] at h1
        omega
      · rcases mem_ite_ite_singleton h with h1 | h1 <;>
          (rw [Prod.mk.injEq] at h1; omega)
      · have h1 := mem_ite_singleton h
        rw [Prod.mk.injEq] at h1
        omega
      · rw [hop, hepf] at h
        simp at h

/-- Witness for C8 on `enPassantScenario`: the white e5 pawn gains the
target d6 = (2,3) as a destination, and the empty non-target diagonal
f6 = (2,5) is not a destination. -/
theorem c8_en_passant_extra_diagonal_witness :
    (⟨PKind.p, 3, 4, some Side.w⟩ : Cell).owner = some enPassantScenario.playerTurn ∧
    enPassantScenario.enPassant = some (2, 3) ∧
    pieceAt 2 3 enPassantScenario = false ∧
    ((2 : Int), (3 : Int)) ∈ pawnRule ⟨PKind.p, 3, 4, some Side.w⟩ enPassantScenario ∧
    ((2 : Int), (5 : Int)) ∉ pawnRule ⟨PKind.p, 3, 4, some Side.w⟩ enPassantScenario := by
  have h := c8_en_passant_extra_diagonal enPassantScenario ⟨PKind.p, 3, 4, some Side.w⟩
    rfl (-1) (Or.inr rfl) (by decide) (by decide)
  exact ⟨rfl, by decide, by decide, h.1, h.2 1 (Or.inl rfl) (by decide) (by decide)⟩

/-- Left projection of a true boolean conjunction. -/
theorem band_true_left {a b : Bool} (h : (a && b) = true) : a = true := by
  cases a
  · simp at h
  · rfl

/-- Right projection of a true boolean conjunction. -/
theorem band_true_right {a b : Bool} (h : (a && b) = true) : b = true := by
  cases b
  · simp at h
  · rfl

/-- Structure of `leaper`: destinations are bounded by the direction
count, pairwise distinct, on the board, and distinct from the origin as
long as the expanded direction set has no duplicate and no zero vector. -/
theorem leaper_spec (dirs : List (Int × Int)) (cell : Cell) (state : GameState)
    (hnodup : (symmetricalDirs dirs).Nodup)
    (hnz : ((0 : Int), (0 : Int)) ∉ symmetricalDirs dirs) :
    (leaper dirs cell state).length ≤ (symmetricalDirs dirs).length ∧
    (leaper dirs cell state).Nodup ∧
    (∀ mv ∈ leaper dirs cell state, onBoard mv.1 mv.2 = true) ∧
    (cell.rank, cell.file) ∉ leaper dirs cell state := by
  unfold leaper
  refine ⟨?_, ?_, ?_, ?_⟩
  · rw [List.length_map]
    exact List.length_filter_le _ _
  · apply List.Nodup.map
    · intro a b hab
      rcases a with ⟨a1, a2⟩
      rcases b with ⟨b1, b2⟩
      rw [Prod.mk.injEq] at hab ⊢
      constructor <;> omega
    · exact hnodup.filter _
  · intro mv hmv
    rw [List.mem_map] at hmv
    obtain ⟨dir, hdir, rfl⟩ := hmv
    rw [List.mem_filter] at hdir
    have h2 := hdir.2
    unfold movableSpace at h2
    exact band_true_left h2
  · intro hmem
    rw [List.mem_map] at hmem
    obtain ⟨dir, hdir, heq⟩ := hmem
    rw [List.mem_filter] at hdir
    rw [Prod.mk.injEq] at heq
    apply hnz
    have hd : dir = ((0 : Int), (0 : Int)) := by
      rcases dir with ⟨d1, d2⟩
      rw [Prod.mk.injEq]
      constructor <;> omega
    rw [← hd]
    exact hdir.1

/-- C10: the leaper rule (knight and king) returns at most 8 destination
squares, pairwise distinct, all on the board, and never the origin square:
the symmetric expansion of the knight/king base offsets has exactly 8
distinct non-zero members. -/
theorem c10_leaper_bounded_distinct (cell : Cell) (state : GameState) (kind : PKind)
    (hk : kind = PKind.n ∨ kind = PKind.k) :
    (rules kind cell state).length ≤ 8 ∧
    (rules kind cell state).Nodup ∧
    (∀ mv ∈ rules kind cell state, onBoard mv.1 mv.2 = true) ∧
    (cell.rank, cell.file) ∉ rules kind cell state := by
  rcases hk with rfl | rfl
  · have h := leaper_spec [(2, 1), (1, 2)] cell state (by decide) (by decide)
    exact ⟨le_trans h.1 (by decide), h.2.1, h.2.2.1, h.2.2.2⟩
  · have h := leaper_spec [(1, 0), (0, 1), (1, 1)] cell state (by decide) (by decide)
    exact ⟨le_trans h.1 (by decide), h.2.1, h.2.2.1, h.2.2.2⟩

/-- Witness for C10 on the starting position: the white b1 knight. -/
theorem c10_leaper_bounded_distinct_witness :
    (PKind.n = PKind.n ∨ PKind.n = PKind.k) ∧
    (rules PKind.n ⟨PKind.n, 7, 1, some Side.w⟩ startingState).length ≤ 8 ∧
    (rules PKind.n ⟨PKind.n, 7, 1, some Side.w⟩ startingState).Nodup ∧
    (∀ mv ∈ rules PKind.n ⟨PKind.n, 7, 1, some Side.w⟩ startingState,
      onBoard mv.1 mv.2 = true) ∧
    ((7 : Int), (1 : Int)) ∉ rules PKind.n ⟨PKind.n, 7, 1, some Side.w⟩ startingState := by
  have h := c10_leaper_bounded_distinct ⟨PKind.n, 7, 1, some Side.w⟩ startingState
    PKind.n (Or.inl rfl)
  exact ⟨Or.inl rfl, h.1, h.2.1, h.2.2.1, h.2.2.2⟩

/-- Zero steps is the start square. -/
theorem stepN_zero (start dir : Int × Int) : stepN start dir 0 = start := by
  simp [stepN]

/-- Stepping once and then `i` times is stepping `i + 1` times. -/
theorem stepN_shift (start dir : Int × Int) (i : Nat) :
    stepN (start.1 + dir.1, start.2 + dir.2) dir i = stepN start dir (i + 1) := by
  rw [stepN, stepN, Prod.mk.injEq]
  constructor <;> push_cast <;> ring

/-- The ray walk, given the index `k` of the first square that is
off-board or occupied (all earlier squares being on-board and empty) and
enough fuel, returns exactly the `k` empty squares followed by the
blocking square iff the latter holds an opponent piece. -/
theorem rideFrom_spec (state : GameState) (opp : Side) (dir : Int × Int) :
    ∀ (k fuel : Nat) (start : Int × Int), k ≤ fuel →
      (∀ i, i < k → openAt (stepN start dir i) state = true) →
      openAt (stepN start dir k) state = false →
      rideFrom state opp dir fuel start =
        (List.range k).map (stepN start dir) ++
        (if ownedPieceAt (stepN start dir k).1 (stepN start dir k).2 (some opp) state
          then [stepN start dir k] else [])
  | 0, fuel, start, _, _, hstop => by
    rw [stepN_zero] at hstop ⊢
    cases fuel with
    | zero => simp [rideFrom]
    | succ f => simp [rideFrom, hstop]
  | (j + 1), fuel, start, hk, hempty, hstop => by
    cases fuel with
    | zero => omega
    | succ f =>
      have hopen : openAt start state = true := by
        have h0 := hempty 0 (by omega)
        rwa [stepN_zero] at h0
      have ih := rideFrom_spec state opp dir j f (start.1 + dir.1, start.2 + dir.2)
        (by omega)
        (fun i hi => by rw [stepN_shift]; exact hempty (i + 1) (by omega))
        (by rw [stepN_shift]; exact hstop)
      rw [rideFrom, if_pos hopen, ih, List.range_succ_eq_map, List.map_cons,
        List.map_map, stepN_zero, stepN_shift, List.cons_append]
      congr 2
      apply List.map_congr_left
      intro a _
      exact stepN_shift start dir a

/-- Along a direction with a unit component, some square within the first
9 of the ray is off-board or occupied, and there is a least such index:
the ray walk can run at most 8 iterations, which justifies fuel 8. -/
theorem firstBlock_exists (state : GameState) (start dir : Int × Int)
    (hdir : dir.1 = 1 ∨ dir.1 = -1 ∨ dir.2 = 1 ∨ dir.2 = -1) :
    ∃ k, k ≤ 8 ∧ (∀ i, i < k → openAt (stepN start dir i) state = true) ∧
      openAt (stepN start dir k) state = false := by
  have h8 : ∃ i, i ≤ 8 ∧ openAt (stepN start dir i) state = false := by
    by_cases h0 : openAt (stepN start dir 0) state = false
    · exact ⟨0, by omega, h0⟩
    by_cases hc8 : openAt (stepN start dir 8) state = false
    · exact ⟨8, by omega, hc8⟩
    exfalso
    have h0t : openAt (stepN start dir 0) state = true := by
      cases h : openAt (stepN start dir 0) state
      · exact absurd h h0
      · rfl
    have h8t : openAt (stepN start dir 8) state = true := by
      cases h : openAt (stepN start dir 8) state
      · exact absurd h hc8
      · rfl
    have hb0 := band_true_left (h0t)
    have hb8 := band_true_left (h8t)
    unfold onBoard at hb0 hb8
    simp only [Bool.and_eq_true, decide_eq_true_eq] at hb0 hb8
    unfold stepN at hb0 hb8
    push_cast at hb0 hb8
    obtain ⟨⟨⟨a1, a2⟩, a3⟩, a4⟩ := hb0
    obtain ⟨⟨⟨b1, b2⟩, b3⟩, b4⟩ := hb8
    rcases hdir with h | h | h | h <;> omega
  obtain ⟨i0, hi0, hfail⟩ := h8
  have hex : ∃ i, openAt (stepN start dir i) state = false := ⟨i0, hfail⟩
  refine ⟨Nat.find hex, le_trans (Nat.find_min' hex hfail) hi0, ?_, Nat.find_spec hex⟩
  intro i hi
  have hne := Nat.find_min hex hi
  cases h : openAt (stepN start dir i) state
  · exact absurd h hne
  · rfl

/-- Every square the ray walk returns is empty or holds an opponent
piece. -/
theorem rideFrom_mem (state : GameState) (opp : Side) (dir : Int × Int) :
    ∀ (fuel : Nat) (pos mv : Int × Int), mv ∈ rideFrom state opp dir fuel pos →
      pieceAt mv.1 mv.2 state = false ∨
        ownedPieceAt mv.1 mv.2 (some opp) state = true
  | 0, pos, mv, h => by
    rw [rideFrom] at h
    by_cases hc : ownedPieceAt pos.1 pos.2 (some opp) state = true
    · rw [if_pos hc, List.mem_singleton] at h
      subst h
      exact Or.inr hc
    · rw [if_neg hc] at h
      simp at h
  | (f + 1), pos, mv, h => by
    rw [rideFrom] at h
    by_cases hc : openAt pos state = true
    · rw [if_pos hc] at h
      rcases List.mem_cons.mp h with rfl | h2
      · left
        unfold openAt at hc
        have h2 := band_true_right hc
        rwa [Bool.not_eq_true'] at h2
      · exact rideFrom_mem state opp dir f _ mv h2
    · rw [if_neg hc] at h
      by_cases hc2 : ownedPieceAt pos.1 pos.2 (some opp) state = true
      · rw [if_pos hc2, List.mem_singleton] at h
        subst h
        exact Or.inr hc2
      · rw [if_neg hc2] at h
        simp at h

/-- `rider`'s output is the union of the per-direction ray walks. -/
theorem rider_mem_iff (dirs : List (Int × Int)) (p : Cell) (state : GameState)
    (mv : Int × Int) :
    mv ∈ rider dirs p state ↔
      ∃ dir ∈ symmetricalDirs dirs,
        mv ∈ getAllSpacesInDir p.rank p.file (opponentOf p.owner) state dir := by
  unfold rider
  rw [foldl_append_bind]
  simp [List.mem_flatMap]

/-- For a direction with a unit component, the ray walk's output is
exactly the empty on-board prefix of the ray followed by the first blocked
square iff the latter holds an opponent piece. -/
theorem getAllSpaces_spec (state : GameState) (opp : Side) (rank file : Int)
    (dir : Int × Int)
    (hunit : dir.1 = 1 ∨ dir.1 = -1 ∨ dir.2 = 1 ∨ dir.2 = -1) :
    ∃ k, k ≤ 8 ∧
      (∀ i, i < k → openAt (raySquare rank file dir i) state = true) ∧
      openAt (raySquare rank file dir k) state = false ∧
      getAllSpacesInDir rank file opp state dir =
        (List.range k).map (raySquare rank file dir) ++
        (if ownedPieceAt (raySquare rank file dir k).1 (raySquare rank file dir k).2
            (some opp) state then [raySquare rank file dir k] else []) := by
  obtain ⟨k, hk8, hempty, hstop⟩ :=
    firstBlock_exists state (rank + dir.1, file + dir.2) dir hunit
  exact ⟨k, hk8, hempty, hstop,
    rideFrom_spec state opp dir k 8 (rank + dir.1, file + dir.2) hk8 hempty hstop⟩

/-- C4: for every position, slider piece and expanded ray direction, the
slider rule's per-ray output is exactly the empty on-board squares
strictly before the first blocked square, plus that square iff it is
on-board and opponent-held; the full rule output is the union of the rays
and never contains a square owned by the slider's own side. -/
theorem c4_slider_rays (state : GameState) (cell : Cell) (s : Side)
    (hown : cell.owner = some s) (kind : PKind)
    (hkind : kind = PKind.r ∨ kind = PKind.b ∨ kind = PKind.q) :
    (∀ mv, mv ∈ rules kind cell state ↔
      ∃ dir ∈ symmetricalDirs (riderBaseDirs kind),
        mv ∈ getAllSpacesInDir cell.rank cell.file (opponentOf cell.owner) state dir) ∧
    (∀ dir ∈ symmetricalDirs (riderBaseDirs kind),
      ∃ k, k ≤ 8 ∧
        (∀ i, i < k → openAt (raySquare cell.rank cell.file dir i) state = true) ∧
        openAt (raySquare cell.rank cell.file dir k) state = false ∧
        getAllSpacesInDir cell.rank cell.file (opponentOf cell.owner) state dir =
          (List.range k).map (raySquare cell.rank cell.file dir) ++
          (if ownedPieceAt (raySquare cell.rank cell.file dir k).1
              (raySquare cell.rank cell.file dir k).2 (some (opponentOf cell.owner))
              state then [raySquare cell.rank cell.file dir k] else [])) ∧
    (∀ mv ∈ rules kind cell state, ownedPieceAt mv.1 mv.2 (some s) state = false) := by
  have hmem : ∀ mv, mv ∈ rules kind cell state ↔
      ∃ dir ∈ symmetricalDirs (riderBaseDirs kind),
        mv ∈ getAllSpacesInDir cell.rank cell.file (opponentOf cell.owner) state dir := by
    rcases hkind with rfl | rfl | rfl <;> exact fun mv => rider_mem_iff _ cell state mv
  refine ⟨hmem, ?_, ?_⟩
  · intro dir hdir
    have hunit : dir.1 = 1 ∨ dir.1 = -1 ∨ dir.2 = 1 ∨ dir.2 = -1 := by
      rcases hkind with rfl | rfl | rfl
      · rw [show symmetricalDirs (riderBaseDirs PKind.r) =
            [((1 : Int), (0 : Int)), (-1, 0), (0, 1), (0, -1)] from by decide] at hdir
        simp at hdir
        rcases hdir with rfl | rfl | rfl | rfl <;> decide
      · rw [show symmetricalDirs (riderBaseDirs PKind.b) =
            [((1 : Int), (1 : Int)), (-1, 1), (1, -1), (-1, -1)] from by decide] at hdir
        simp at hdir
        rcases hdir with rfl | rfl | rfl | rfl <;> decide
      · rw [show symmetricalDirs (riderBaseDirs PKind.q) =
            [((1 : Int), (0 : Int)), (-1, 0), (0, 1), (0, -1),
             (1, 1), (-1, 1), (1, -1), (-1, -1)] from by decide] at hdir
        simp at hdir
        rcases hdir with rfl | rfl | rfl | rfl | rfl | rfl | rfl | rfl <;> decide
    exact getAllSpaces_spec state (opponentOf cell.owner) cell.rank cell.file dir hunit
  · intro mv hmv
    obtain ⟨dir, _, hray⟩ := (hmem mv).mp hmv
    unfold getAllSpacesInDir at hray
    rcases rideFrom_mem state (opponentOf cell.owner) dir 8 _ mv hray with hpf | hop
    · exact ownedPieceAt_false_of_pieceAt_false _ _ _ _ hpf
    · unfold ownedPieceAt at hop ⊢
      have howner : (cellAt state mv.1 mv.2).owner = some (opponentOf cell.owner) :=
        of_decide_eq_true (band_true_right hop)
      rw [howner, hown]
      cases s <;> simp [opponentOf]

/-- Witness for C4: a white rook on (0,0) whose downward ray ends by
capturing the black pawn on (4,0); the capture square is produced and is
not white-owned. -/
theorem c4_slider_rays_witness :
    (⟨PKind.r, 0, 0, some Side.w⟩ : Cell).owner = some Side.w ∧
    (PKind.r = PKind.r ∨ PKind.r = PKind.b ∨ PKind.r = PKind.q) ∧
    ((4 : Int), (0 : Int)) ∈ rules PKind.r ⟨PKind.r, 0, 0, some Side.w⟩ rookRayState ∧
    ownedPieceAt 4 0 (some Side.w) rookRayState = false := by
  have h := c4_slider_rays rookRayState ⟨PKind.r, 0, 0, some Side.w⟩ Side.w rfl
    PKind.r (Or.inl rfl)
  refine ⟨rfl, Or.inl rfl, by decide, ?_⟩
  exact h.2.2 (4, 0) (by decide)

end Chessmaster
